import Mathlib

/- Verification of the pku-blackboard-watcher core: a shallow embedding of the
credential vault, the HTML extraction layer, the notification eligibility
evaluator, the incremental sync engine for the notice and calendar feeds, the
persistence batch loop, and the login handshake, together with theorems about
the properties stated in the specification.  All definitions come first,
followed by the lemmas and the claim theorems. -/

namespace BBWatcher

/-! ## Byte strings and hex encoding

The credential vault (src/utils.ts, class CryptoUtils) works on Node byte
buffers and hex strings.  Byte strings are embedded as `List Nat` whose
members are below 256. -/

/-- A byte string: every member is an actual byte value. -/
def ValidBytes (l : List Nat) : Prop := ∀ b ∈ l, b < 256

instance (l : List Nat) : Decidable (ValidBytes l) := List.decidableBAll _ l

/-- Character code of one lowercase hex digit, as Node `toString('hex')` emits. -/
def hexDigitChar (d : Nat) : Nat := if d < 10 then 48 + d else 87 + d

/-- Hex encoding of a single byte: two lowercase hex digit characters. -/
def hexEncodeByte (b : Nat) : List Nat := [hexDigitChar (b / 16), hexDigitChar (b % 16)]

/-- Hex encoding of a byte string, as `Buffer.toString('hex')` produces. -/
def hexEncode (l : List Nat) : List Nat := (l.map hexEncodeByte).flatten

/-- Value of one hex digit character (digits, lowercase and uppercase letters),
as Node's hex decoder accepts. -/
def hexDigitVal (c : Nat) : Option Nat :=
  if 48 ≤ c ∧ c ≤ 57 then some (c - 48)
  else if 97 ≤ c ∧ c ≤ 102 then some (c - 87)
  else if 65 ≤ c ∧ c ≤ 70 then some (c - 55)
  else none

/-- Node's lenient hex decoding (`Buffer.from(str, 'hex')`): byte pairs are
decoded until the first invalid pair or an odd trailing digit, which is
silently dropped together with the rest. -/
def lenientHexDecode : List Nat → List Nat
  | c1 :: c2 :: rest =>
    match hexDigitVal c1, hexDigitVal c2 with
    | some hi, some lo => (16 * hi + lo) :: lenientHexDecode rest
    | _, _ => []
  | _ => []

/-- JavaScript `String.split(sep)`: the list of separator-free segments.
Always returns at least one segment. -/
def splitSep (sep : Nat) : List Nat → List (List Nat)
  | [] => [[]]
  | c :: rest =>
    if c = sep then [] :: splitSep sep rest
    else
      match splitSep sep rest with
      | [] => [[c]]
      | s :: ss => (c :: s) :: ss

/-! ## Credential vault (src/utils.ts, class CryptoUtils)

The AES-256-CBC primitive itself lives in Node's `crypto` library, outside
the repository; it is embedded as an abstract block-cipher-mode pair `enc` /
`dec`, where `dec` returns `none` when the library call would throw (bad
padding, wrong key detected by the padding check).  Everything around the
primitive — key normalization, fresh-iv storage format `ivHex:cipherHex`,
the split/parse on decrypt, and the error behaviour — is translated from the
source. -/

/-- An abstract cipher in CBC mode: `enc key iv plaintext` and a possibly
failing `dec key iv ciphertext`, standing for Node's
`createCipheriv`/`createDecipheriv` with `aes-256-cbc`. -/
structure CbcCipher where
  enc : List Nat → List Nat → List Nat → List Nat
  dec : List Nat → List Nat → List Nat → Option (List Nat)

/-- The library contract used on the happy path: decryption under the 32-byte
key that produced a ciphertext recovers the plaintext. -/
def Invertible (c : CbcCipher) : Prop :=
  ∀ k iv m, k.length = 32 → c.dec k iv (c.enc k iv m) = some m

/-- The library contract for mismatched keys: decryption under a different
32-byte key fails (the padding/format check throws). -/
def RejectsWrongKey (c : CbcCipher) : Prop :=
  ∀ k k' iv m, k.length = 32 → k'.length = 32 → k ≠ k' → c.dec k' iv (c.enc k iv m) = none

/-- Ciphertexts are byte strings. -/
def EncValid (c : CbcCipher) : Prop :=
  ∀ k iv m, ValidBytes k → ValidBytes iv → ValidBytes m → ValidBytes (c.enc k iv m)

/-- The decrypt error thrown by `CryptoUtils.decrypt` (the source rethrows
every internal failure as one error). -/
inductive CryptoError
  | decryptionError
deriving DecidableEq

namespace CryptoUtils

/-- `this.encryptionKey.padEnd(32, '0').slice(0, 32)`: right-pad the key with
the filler byte 48 (the character 0) and truncate to 32 bytes. -/
def normalizeKey (key : List Nat) : List Nat :=
  (key ++ List.replicate (32 - key.length) 48).take 32

/-- `CryptoUtils.encrypt`: encrypt under the normalized key with a fresh iv
(the iv is a parameter here, standing for `randomBytes(16)`), and store
`iv.toString('hex') + ':' + encrypted`. The colon is byte 58. -/
def encrypt (c : CbcCipher) (key iv text : List Nat) : List Nat :=
  hexEncode iv ++ 58 :: hexEncode (c.enc (normalizeKey key) iv text)

/-- `CryptoUtils.decrypt`: empty input returns the empty string; otherwise
split on the colon, decode the iv from `parts[0]` and the ciphertext from
`parts[1]`, and decrypt.  A missing second part (`Buffer.from(undefined)`
throws), a non-16-byte iv (`createDecipheriv` throws) or a failing
decryption (`decipher.final()` throws) are all caught and rethrown as the
decryption error. -/
def decrypt (c : CbcCipher) (key text : List Nat) : Except CryptoError (List Nat) :=
  if text = [] then Except.ok []
  else
    match splitSep 58 text with
    | p0 :: p1 :: _ =>
      let iv := lenientHexDecode p0
      if iv.length = 16 then
        match c.dec (normalizeKey key) iv (lenientHexDecode p1) with
        | some m => Except.ok m
        | none => Except.error CryptoError.decryptionError
      else Except.error CryptoError.decryptionError
    | _ => Except.error CryptoError.decryptionError

end CryptoUtils

/-- A concrete cipher satisfying the library contracts, used to instantiate
the abstract primitive in witnesses: the ciphertext is the 32-byte key
followed by the plaintext, and decryption checks the key tag. -/
def tagCipher : CbcCipher where
  enc := fun k _ m => k ++ m
  dec := fun k _ ct => if ct.take 32 = k then some (ct.drop 32) else none

/-! ## HTML extraction layer (src/utils.ts)

The extraction functions are regex rewrites over raw HTML strings; they are
embedded as character-list scanners.  Recursion is by an explicit fuel equal
to the input length (each step consumes at least one character), which keeps
every definition structural and evaluable.  Tag interiors are read to the
first closing angle bracket, which coincides with the source patterns
whenever attribute values contain no angle bracket. -/

/-- Case-insensitive character equality (the source regexes carry the i flag). -/
def lowerEq (a b : Char) : Bool := a.toLower == b.toLower

/-- Case-insensitive list-prefix test. -/
def isPrefixCI : List Char → List Char → Bool
  | [], _ => true
  | _ :: _, [] => false
  | p :: ps, c :: cs => lowerEq p c && isPrefixCI ps cs

/-- Case-insensitive substring test. -/
def containsCI (pat : List Char) : List Char → Bool
  | [] => pat.isEmpty
  | c :: rest => isPrefixCI pat (c :: rest) || containsCI pat rest

/-- Split at the first (case-insensitive) occurrence of a pattern: the text
before the match, the suffix starting at the match and the suffix after it. -/
def splitAtFirstCI (pat : List Char) : List Char → Option (List Char × List Char × List Char)
  | [] => if pat.isEmpty then some ([], [], []) else none
  | c :: rest =>
    if isPrefixCI pat (c :: rest) then some ([], c :: rest, (c :: rest).drop pat.length)
    else
      match splitAtFirstCI pat rest with
      | some (pre, atm, post) => some (c :: pre, atm, post)
      | none => none

/-- Read a tag interior: the characters before the first closing angle
bracket, and the rest after it. -/
def splitTag : List Char → Option (List Char × List Char)
  | [] => none
  | c :: rest =>
    if c = '>' then some ([], rest)
    else
      match splitTag rest with
      | some (i, r) => some (c :: i, r)
      | none => none

/-- The suffix after the first closing angle bracket, if any. -/
def findGt : List Char → Option (List Char)
  | [] => none
  | c :: rest => if c = '>' then some rest else findGt rest

/-- One pass of the tag-stripping rewrite: a tag (an opening angle bracket
with a closing one somewhere after it) is dropped whole; an opening bracket
never closed stays, as in the source pattern. -/
def stripTagsF : Nat → List Char → List Char
  | 0, _ => []
  | _ + 1, [] => []
  | fuel + 1, c :: rest =>
    if c = '<' then
      match findGt rest with
      | some rest' => stripTagsF fuel rest'
      | none => c :: stripTagsF fuel rest
    else c :: stripTagsF fuel rest

/-- `html.replace(/<[^>]*>/g, '')`: remove every tag. -/
def stripTags (l : List Char) : List Char := stripTagsF l.length l

/-- JavaScript `String.trim()`. -/
def trimChars (l : List Char) : List Char :=
  ((l.dropWhile Char.isWhitespace).reverse.dropWhile Char.isWhitespace).reverse

/-- JavaScript `String.toLowerCase()`, character by character. -/
def strLower (s : String) : String := String.mk (s.data.map Char.toLower)

/-- JavaScript `String.startsWith(pre)`. -/
def strStartsWith (s pre : String) : Bool := pre.data.isPrefixOf s.data

/-- JavaScript `String.includes(c)` for a one-character needle. -/
def strContainsChar (s : String) (c : Char) : Bool := s.data.contains c

/-- JavaScript `String.trim()` on a string. -/
def strTrim (s : String) : String := String.mk (trimChars s.data)

/-- JavaScript `String.length` (code units; all claim-relevant uses compare
against zero). -/
def strLen (s : String) : Nat := s.data.length

/-- Whether a tag interior carries a class attribute whose quoted value
contains the given name (the `class="[^"]*name[^"]*"` part of the source
patterns, case-insensitive). -/
def hasClassAttr (name : List Char) : List Char → Bool
  | [] => false
  | c :: rest =>
    (isPrefixCI "class=\"".data (c :: rest) &&
      containsCI name (((c :: rest).drop 7).takeWhile (fun ch => ch ≠ '"'))) ||
    hasClassAttr name rest

/-- The suffix after the first closing tag (`</` followed by at least one
character and a closing bracket), matching the closing-tag part of the
source patterns. -/
def findCloseTag : List Char → Option (List Char)
  | [] => none
  | c :: rest =>
    if c = '<' then
      match rest with
      | '/' :: rest2 =>
        match splitTag rest2 with
        | some (i, r) => if i.isEmpty then findCloseTag rest else some r
        | none => none
      | _ => findCloseTag rest
    else findCloseTag rest

/-- The class-region removal rewrite of `parseTitle`: every region from a tag
carrying the class name through the nearest closing tag after it is removed
(global, case-insensitive, lazy body). -/
def removeClassRegionsF (name : List Char) : Nat → List Char → List Char
  | 0, _ => []
  | _ + 1, [] => []
  | fuel + 1, c :: rest =>
    if c = '<' then
      match splitTag rest with
      | some (interior, afterTag) =>
        if hasClassAttr name interior then
          match findCloseTag afterTag with
          | some afterClose => removeClassRegionsF name fuel afterClose
          | none => c :: removeClassRegionsF name fuel rest
        else c :: removeClassRegionsF name fuel rest
      | none => c :: removeClassRegionsF name fuel rest
    else c :: removeClassRegionsF name fuel rest

/-- Global removal of the decorated regions for one class name. -/
def removeClassRegions (name : String) (l : List Char) : List Char :=
  removeClassRegionsF name.data l.length l

/-- The three decorative-markup removals of `parseTitle`, in source order:
context-menu controls, type badges, posted-date badges. -/
def removeDecorations (l : List Char) : List Char :=
  removeClassRegions "announcementPosted"
    (removeClassRegions "announcementType"
      (removeClassRegions "inlineContextMenu" l))

/-- `parseTitle` on characters: empty input yields empty; otherwise strip the
decorative regions, strip all remaining tags, trim, and drop the final two
characters (`slice(0, -2)`). -/
def parseTitleCore (l : List Char) : List Char :=
  if l = [] then []
  else
    let t := trimChars (stripTags (removeDecorations l))
    t.take (t.length - 2)

/-- `parseTitle(titleHtml)` from src/utils.ts. -/
def parseTitle (s : String) : String := String.mk (parseTitleCore s.data)

/-- `parseContent(contentHtml)` from src/utils.ts: strip all tags and trim. -/
def parseContent (s : String) : String :=
  if s = "" then "" else String.mk (trimChars (stripTags s.data))

/-- The capture of the title-element pattern of `hasAttempted`: content
between the first title tag and the nearest closing title tag. -/
def findTitleContent (l : List Char) : Option (List Char) :=
  match splitAtFirstCI "<title".data l with
  | some (_, _, afterOpen) =>
    match splitTag afterOpen with
    | some (_, rest) =>
      match splitAtFirstCI "</title>".data rest with
      | some (content, _, _) => some content
      | none => none
    | none => none
  | none => none

/-- `hasAttempted(assignmentHtml)` from src/utils.ts: the page title text,
tag-stripped and trimmed, begins with the resubmission marker character. -/
def hasAttempted (s : String) : Bool :=
  if s = "" then false
  else
    match findTitleContent s.data with
    | none => false
    | some content =>
      if content = [] then false
      else
        match trimChars (stripTags content) with
        | [] => false
        | t0 :: _ => t0 = '复'

/-- The capture of the first tag region with the given name whose interior
passes the attribute check: the content up to the nearest closing pattern;
on failure the scan resumes one character further. -/
def findTagRegionF (tagName : List Char) (attrCheck : List Char → Bool) (closePat : List Char) :
    Nat → List Char → Option (List Char)
  | 0, _ => none
  | _ + 1, [] => none
  | fuel + 1, c :: rest =>
    if c = '<' && isPrefixCI tagName rest then
      match splitTag rest with
      | some (interior, afterTag) =>
        if attrCheck interior then
          match splitAtFirstCI closePat afterTag with
          | some (content, _, _) => some content
          | none => findTagRegionF tagName attrCheck closePat fuel rest
        else findTagRegionF tagName attrCheck closePat fuel rest
      | none => findTagRegionF tagName attrCheck closePat fuel rest
    else findTagRegionF tagName attrCheck closePat fuel rest

def findTagRegion (tagName : String) (attrCheck : List Char → Bool) (closePat : String)
    (l : List Char) : Option (List Char) :=
  findTagRegionF tagName.data attrCheck closePat.data l.length l

/-- All full matches of the global anchor-element pattern of
`parseInstruction`, in order. -/
def findLinksF : Nat → List Char → List (List Char)
  | 0, _ => []
  | _ + 1, [] => []
  | fuel + 1, c :: rest =>
    if c = '<' && isPrefixCI "a".data rest then
      match splitTag rest with
      | some (interior, afterTag) =>
        match splitAtFirstCI "</a>".data afterTag with
        | some (content, _, afterClose) =>
          ('<' :: (interior ++ '>' :: afterTag.take (content.length + 4))) ::
            findLinksF fuel afterClose
        | none => findLinksF fuel rest
      | none => findLinksF fuel rest
    else findLinksF fuel rest

def findLinks (l : List Char) : List (List Char) := findLinksF l.length l

/-- The numbered attachment lines appended by `parseInstruction`: one line per
link whose tag-stripped trimmed text is non-empty, numbered by the link's
position in the match list. -/
def attachmentText (links : List (List Char)) : String :=
  links.enum.foldl
    (fun acc p =>
      let linkText := String.mk (trimChars (stripTags p.2))
      if linkText ≠ "" then acc ++ "\n附件" ++ toString (p.1 + 1) ++ "：" ++ linkText else acc)
    ""

/-- `parseInstruction(assignmentHtml)` from src/utils.ts: the text of the
generated-content block, followed by attachment lines from the submitted
attachments block when the page shows a resubmission, and from the
instructions list element otherwise. -/
def parseInstruction (s : String) : String :=
  if s = "" then ""
  else
    let l := s.data
    let text0 :=
      match findTagRegion "div" (hasClassAttr "vtbegenerated".data) "</div>" l with
      | some content => String.mk (trimChars (stripTags content))
      | none => ""
    let links :=
      if hasAttempted s then
        match findTagRegion "div" (containsCI "id=\"assignmentInfo\"".data) "</div>" l with
        | some content => findLinks content
        | none => []
      else
        match findTagRegion "li" (containsCI "id=\"instructions\"".data) "</li>" l with
        | some content => findLinks content
        | none => []
    text0 ++ attachmentText links

/-! ## Time model (src/utils.ts)

Date parsing and locale rendering live in the JavaScript Date library.  A
date string is embedded together with the millisecond timestamp the library
parser assigns to it; the locale renderings are modelled as injective
placeholder renderings, since no claim depends on their exact text. -/

/-- A date string together with its parsed millisecond timestamp. -/
structure DateStr where
  raw : String
  parsedMs : Int
deriving DecidableEq

/-- `convertToTimestamp(timeStr)`: `new Date(timeStr).getTime()`. -/
def convertToTimestamp (d : DateStr) : Int := d.parsedMs

/-- `convertTimezone(timeStr)`: the locale rendering of a date string,
modelled as the raw string. -/
def convertTimezone (d : DateStr) : String := d.raw

/-- `convertToTime(timestamp)`: the locale rendering of a timestamp,
modelled as its decimal rendering. -/
def convertToTime (ts : Int) : String := toString ts

/-- `testWithinHours(timeStr, advanceHours)` with the ambient `Date.now()`
made explicit: whether the target is at most `advanceHours` hours after
now.  Note the source compares only from above. -/
def testWithinHours (now : Int) (d : DateStr) (advanceHours : Int) : Bool :=
  decide (convertToTimestamp d - now ≤ advanceHours * 3600000)

/-- `removeSuffix(courseName)` on characters: drop a trailing parenthesized
group containing no parentheses, if present. -/
def removeSuffixCore (l : List Char) : List Char :=
  match l.reverse with
  | ')' :: rest =>
    let inner := rest.takeWhile (fun c => c != '(' && c != ')')
    match rest.drop inner.length with
    | '(' :: rem => rem.reverse
    | _ => l
  | _ => l

/-- `removeSuffix(courseName)` from src/utils.ts (also inlined in the
calendar handler). -/
def removeSuffix (s : String) : String := String.mk (removeSuffixCore s.data)

/-! ## Configuration and eligibility (src/core/notice_handler.ts)

The per-user configuration row stores the alias and override maps as JSON
strings parsed with `parseJSON`; they are embedded post-parse as association
lists (first match wins, so a JavaScript object is the reversed list of its
insertions).  The title-prefix fields are named `noticeTitlePre` and
`assignmentTitlePre` here. -/

structure BBConfig where
  courseAliases : List (String × String)
  noticeTitlePre : String
  generalAllowedEvents : String
  specificCourseEvents : List (String × String)
  calendarAdvanceHours : Int
  assignmentTitlePre : String

/-- JavaScript object property lookup on a parsed JSON map. -/
def lookupAssoc (m : List (String × String)) (k : String) : Option String :=
  (m.find? (fun p => p.1 == k)).map (fun p => p.2)

/-- `NoticeHandler.isEventAllowed(course, event)`: resolve the allowed-events
string from the per-course override map keyed by the lowercased course name,
falling back to the global string when the lookup misses or the override is
the empty string (JavaScript or-fallback), then test membership of the
category digit the event code maps to. -/
def isEventAllowed (cfg : BBConfig) (course event : String) : Bool :=
  let allowedEvents :=
    match lookupAssoc cfg.specificCourseEvents (strLower course) with
    | some s => if s = "" then cfg.generalAllowedEvents else s
    | none => cfg.generalAllowedEvents
  if strStartsWith event "AS" then strContainsChar allowedEvents '1'
  else if strStartsWith event "CO" then strContainsChar allowedEvents '2'
  else strContainsChar allowedEvents '3'

/-- The coarse category digit an event code maps to: assignment-prefixed
codes to 1, content-prefixed codes to 2, everything else to 3. -/
def eventCategoryChar (event : String) : Char :=
  if strStartsWith event "AS" then '1' else if strStartsWith event "CO" then '2' else '3'

/-- The eligibility resolution as the specification words it (claim C7): a
course present in the override map under case-insensitive comparison uses
the override's category set, otherwise the global set is used. -/
def isEligibleSpec (cfg : BBConfig) (course event : String) : Bool :=
  match cfg.specificCourseEvents.find? (fun p => strLower p.1 == strLower course) with
  | some p => strContainsChar p.2 (eventCategoryChar event)
  | none => strContainsChar cfg.generalAllowedEvents (eventCategoryChar event)

/-- The amended eligibility resolution: the override applies only when the
lowercased course name is literally a key of the map and the override string
is non-empty — otherwise the global set is used — and membership is tested
against the category digit the event code maps to. -/
def isEligibleAmended (cfg : BBConfig) (course event : String) : Bool :=
  let categories :=
    match lookupAssoc cfg.specificCourseEvents (strLower course) with
    | some s => if s = "" then cfg.generalAllowedEvents else s
    | none => cfg.generalAllowedEvents
  strContainsChar categories (eventCategoryChar event)

/-! ## Records and the persistence batch loop (src/database.ts)

The durable ledger rows, without the wrapper fields the database layer adds
(numeric id, user id, created/updated stamps).  `createNoticeRecords` and
`createAssignmentRecords` insert a batch one record at a time inside a
single try block whose catch only logs, so the first rejected insert aborts
the remainder of the batch; `fails` models which inserts the database
rejects. -/

structure NoticeRecord where
  noticeId : String
  time : String
  course : String
  title : String
  content : String
  event : String
  shouldNotify : Bool
deriving DecidableEq

structure AssignmentRecord where
  assignmentId : String
  time : String
  course : String
  title : String
  description : String
  shouldNotify : Bool
deriving DecidableEq

/-- The insert loop shared by both create functions: stop at the first
failing insert, keeping what was inserted before it. -/
def createLoop {α : Type} (fails : α → Bool) : List α → List α
  | [] => []
  | r :: rest => if fails r then [] else r :: createLoop fails rest

/-- `createNoticeRecords` from src/database.ts: the records actually
inserted. -/
def createNoticeRecords (fails : NoticeRecord → Bool) (records : List NoticeRecord) :
    List NoticeRecord := createLoop fails records

/-- `createAssignmentRecords` from src/database.ts: the records actually
inserted. -/
def createAssignmentRecords (fails : AssignmentRecord → Bool) (records : List AssignmentRecord) :
    List AssignmentRecord := createLoop fails records

/-! ## Notice sync pass (src/core/notice_handler.ts)

The handler's network and database collaborators appear as explicit inputs:
the fetched feed document, the previously persisted records, an oracle for
the per-item detail fetch (`none` when the fetch throws), and the persist
failure oracle.  Messages sent through the session are collected in order
and tagged by the code path that sent them. -/

/-- A message sent through the session, tagged by its construction site:
the one-time initialization message, a per-item notification, or the
calendar configuration complaint. -/
inductive SentMsg
  | initMsg (text : String)
  | itemMsg (text : String)
  | cfgMsg (text : String)
deriving DecidableEq

def SentMsg.isInit : SentMsg → Bool
  | SentMsg.initMsg _ => true
  | _ => false

def SentMsg.isItem : SentMsg → Bool
  | SentMsg.itemMsg _ => true
  | _ => false

/-- A raw notice stream entry, with the optional fields the handler reads
(absent properties are `none`). -/
structure NoticeEntry where
  se_id : String
  se_timestamp : Int
  se_courseId : String
  se_context : Option String
  se_details : Option String
  event_type : Option String
  se_itemUri : Option String
  dueDate : Option DateStr
deriving DecidableEq

/-- JavaScript truthiness of an optional string. -/
def truthy : Option String → Bool
  | some s => s != ""
  | none => false

/-- An absent or present string property read with an empty-string default. -/
def orEmpty (o : Option String) : String := o.getD ""

/-- `NoticeHandler.filterNoticeInfo(entry, courseDict, isInit)`: normalize a
new entry to a record, and, only for an available-assignment event with a
uri on an eligible item outside the first run, fetch the detail page and
splice in the instruction text and the deadline.  A failing fetch is caught
and leaves the content unchanged.  The second component is the list of
detail fetches attempted. -/
def filterNoticeInfo (cfg : BBConfig) (fetchItem : String → Option String)
    (courseDict : List (String × String)) (isInit : Bool) (entry : NoticeEntry) :
    NoticeRecord × List String :=
  let course := (lookupAssoc courseDict entry.se_courseId).getD ""
  let event := orEmpty entry.event_type
  let shouldNotify := isEventAllowed cfg course event
  let content0 := parseContent (orEmpty entry.se_details)
  let contentLog : String × List String :=
    if (event == "AS:AS_AVAIL") && truthy entry.se_itemUri && shouldNotify && !isInit then
      match entry.se_itemUri with
      | some uri =>
        match fetchItem uri with
        | some html =>
          let instruction := parseInstruction html
          let content1 :=
            if strLen instruction > 0 then content0 ++ "\n" ++ instruction else content0
          let content2 :=
            match entry.dueDate with
            | some d =>
              if d.raw ≠ "" then content1 ++ "\n截止时间：" ++ convertTimezone d else content1
            | none => content1
          (content2, [uri])
        | none => (content0, [uri])
      | none => (content0, [])
    else (content0, [])
  ({ noticeId := entry.se_id,
     time := convertToTime entry.se_timestamp,
     course := course,
     title := parseTitle (orEmpty entry.se_context),
     content := strTrim contentLog.1,
     event := event,
     shouldNotify := shouldNotify }, contentLog.2)

/-- The text `NoticeHandler.notifyNotice(record)` sends: alias-substituted
course, configured title marker, and the posted time trailing the body. -/
def noticeMsgText (cfg : BBConfig) (r : NoticeRecord) : String :=
  let course :=
    match lookupAssoc cfg.courseAliases (strLower r.course) with
    | some a => if a = "" then r.course else a
    | none => r.course
  let sep := if strLen course > 0 then "：" else ""
  let subject := cfg.noticeTitlePre ++ " " ++ course ++ sep ++ r.title
  let body := r.content ++ "\n发布时间：" ++ r.time
  subject ++ "\n" ++ strTrim body

/-- The one-time initialization message of the notice pass, carrying the
count of synchronized entries. -/
def noticeInitText (n : Nat) : String :=
  "通知提醒模块首次运行成功！\n初始化已完成，从教学网同步了 " ++ toString n ++
    " 条已有通知。之后就可以自动检测新的通知并提醒您了~"

/-- The sentinel record appended on the first notice pass. -/
def initNoticeRecord (now : Int) : NoticeRecord :=
  { noticeId := "%init%", time := convertToTime now, course := "", title := "初始化标记",
    content := "通知提醒模块初始化完成", event := "", shouldNotify := false }

/-- The fetched notice feed document: the course list of `sv_extras` and the
stream entries. -/
structure NoticeData where
  courses : List (String × String)
  streamEntries : List NoticeEntry
deriving DecidableEq

/-- The course-id-to-name dictionary built by `NoticeHandler.process` (later
assignments overwrite, hence the reversal under first-match lookup). -/
def noticeCourseDict (data : NoticeData) : List (String × String) :=
  (data.courses.map (fun p => (p.1, removeSuffix p.2))).reverse

def noticeOldIds (old : List NoticeRecord) : List String := old.map (fun r => r.noticeId)

/-- Whether this is the first notice pass: the sentinel id is absent. -/
def noticeIsInit (old : List NoticeRecord) : Bool := !((noticeOldIds old).contains "%init%")

/-- The entries of the feed whose id is not yet persisted, in feed order. -/
def noticeNewEntries (data : NoticeData) (old : List NoticeRecord) : List NoticeEntry :=
  data.streamEntries.filter (fun e => !((noticeOldIds old).contains e.se_id))

/-- The observable outcome of one sync pass: the messages sent, the batch
handed to the persistence step, the detail fetches attempted, and the
records actually persisted. -/
structure PassOutcome (ρ : Type) where
  messages : List SentMsg
  batch : List ρ
  fetchLog : List String
  persisted : List ρ

/-- `NoticeHandler.process()` given a successfully fetched feed: diff against
the persisted ids, normalize the new entries, emit either the one
initialization message (first run, appending the sentinel to the batch) or
one message per eligible new record, and persist the batch. -/
def noticeProcess (cfg : BBConfig) (fetchItem : String → Option String)
    (persistFails : NoticeRecord → Bool) (now : Int) (data : NoticeData)
    (old : List NoticeRecord) : PassOutcome NoticeRecord :=
  let isInit := noticeIsInit old
  let recsLogs := (noticeNewEntries data old).map
    (filterNoticeInfo cfg fetchItem (noticeCourseDict data) isInit)
  let newRecords := recsLogs.map Prod.fst
  let batch := if isInit then newRecords ++ [initNoticeRecord now] else newRecords
  { messages :=
      if isInit then [SentMsg.initMsg (noticeInitText newRecords.length)]
      else
        newRecords.filterMap (fun r =>
          if r.shouldNotify then some (SentMsg.itemMsg (noticeMsgText cfg r)) else none),
    batch := batch,
    fetchLog := (recsLogs.map Prod.snd).flatten,
    persisted := if batch.isEmpty then [] else createNoticeRecords persistFails batch }

/-! ## Calendar sync pass (src/core/blackboard.ts, src/core/calendar_handler.ts) -/

/-- A raw calendar entry as the server returns it. -/
structure CalendarEntry where
  id : String
  endDate : DateStr
  calendarName : String
  title : String
  description : Option String
deriving DecidableEq

/-- `BlackboardClient.getCalendarData(advanceHours)` given the server's
response: re-check each entry's end time with `testWithinHours` before
returning it. -/
def getCalendarData (now : Int) (advanceHours : Int) (serverEntries : List CalendarEntry) :
    List CalendarEntry :=
  serverEntries.filter (fun e => testWithinHours now e.endDate advanceHours)

/-- `CalendarHandler.filterAssignmentInfo(entry)`: normalize a new entry to a
record; for every non-personal entry fetch the attempt page, decide
`shouldNotify` from the resubmission marker, and splice in the instruction
text when still due.  A failing fetch is caught and leaves the defaults.
The second component is the list of attempt fetches. -/
def filterAssignmentInfo (fetchAttempt : String → Option String) (entry : CalendarEntry) :
    AssignmentRecord × List String :=
  let course := removeSuffix entry.calendarName
  let desc0 := orEmpty entry.description
  let snDescLog : Bool × String × List String :=
    if course ≠ "个人" then
      match fetchAttempt entry.id with
      | some html =>
        let sn := !hasAttempted html
        let desc :=
          if sn then
            let instruction := parseInstruction html
            if strLen instruction > 0 then desc0 ++ "\n" ++ instruction else desc0
          else desc0
        (sn, desc, [entry.id])
      | none => (true, desc0, [entry.id])
    else (true, desc0, [])
  ({ assignmentId := entry.id,
     time := convertTimezone entry.endDate,
     course := course,
     title := entry.title,
     description := strTrim snDescLog.2.1,
     shouldNotify := snDescLog.1 }, snDescLog.2.2)

/-- The text `CalendarHandler.notifyAssignment(record)` sends. -/
def assignmentMsgText (cfg : BBConfig) (r : AssignmentRecord) : String :=
  let subject :=
    if r.course = "个人" then cfg.assignmentTitlePre ++ " " ++ r.title
    else
      let course :=
        match lookupAssoc cfg.courseAliases (strLower r.course) with
        | some a => if a = "" then r.course else a
        | none => r.course
      let sep := if strLen course > 0 then "：" else ""
      cfg.assignmentTitlePre ++ " " ++ course ++ sep ++ r.title
  let body := r.description ++ "\n截止时间：" ++ r.time
  subject ++ "\n" ++ strTrim body

/-- The one-time initialization message of the calendar pass. -/
def assignmentInitText : String :=
  "日程提醒模块首次运行成功！\n之后就可以自动在作业、事件截止前提醒您了~"

/-- The sentinel record appended on the first calendar pass. -/
def initAssignmentRecord (now : Int) : AssignmentRecord :=
  { assignmentId := "%init%", time := convertToTime now, course := "", title := "初始化标记",
    description := "日程模块初始化完成", shouldNotify := false }

def assignmentOldIds (old : List AssignmentRecord) : List String :=
  old.map (fun r => r.assignmentId)

/-- Whether this is the first calendar pass: the sentinel id is absent. -/
def assignmentIsInit (old : List AssignmentRecord) : Bool :=
  !((assignmentOldIds old).contains "%init%")

/-- The window-checked calendar entries whose id is not yet persisted. -/
def calendarNewEntries (now advanceHours : Int) (serverEntries : List CalendarEntry)
    (old : List AssignmentRecord) : List CalendarEntry :=
  (getCalendarData now advanceHours serverEntries).filter
    (fun e => !((assignmentOldIds old).contains e.id))

/-- `CalendarHandler.process()` given the server's response: complain and
stop on a non-positive lookahead, otherwise window-check, diff, normalize,
emit either the one initialization message (appending the sentinel) or one
message per still-notifiable record, and persist the batch. -/
def calendarProcess (cfg : BBConfig) (fetchAttempt : String → Option String)
    (persistFails : AssignmentRecord → Bool) (now : Int) (serverEntries : List CalendarEntry)
    (old : List AssignmentRecord) : PassOutcome AssignmentRecord :=
  if cfg.calendarAdvanceHours ≤ 0 then
    { messages := [SentMsg.cfgMsg "DDL 提前通知时间不是正整数，请检查配置"],
      batch := [], fetchLog := [], persisted := [] }
  else
    let isInit := assignmentIsInit old
    let recsLogs := (calendarNewEntries now cfg.calendarAdvanceHours serverEntries old).map
      (filterAssignmentInfo fetchAttempt)
    let newRecords := recsLogs.map Prod.fst
    let batch := if isInit then newRecords ++ [initAssignmentRecord now] else newRecords
    { messages :=
        if isInit then [SentMsg.initMsg assignmentInitText]
        else
          newRecords.filterMap (fun r =>
            if r.shouldNotify then some (SentMsg.itemMsg (assignmentMsgText cfg r)) else none),
      batch := batch,
      fetchLog := (recsLogs.map Prod.snd).flatten,
      persisted := if batch.isEmpty then [] else createAssignmentRecords persistFails batch }

/-! ## Sequences of sync passes

The ledger evolution across scheduled checks: each pass appends exactly the
records its persistence step inserted. -/

/-- The varying inputs of one notice pass. -/
structure NoticePassInput where
  cfg : BBConfig
  fetchItem : String → Option String
  persistFails : NoticeRecord → Bool
  now : Int
  data : NoticeData

def noticeLedgerStep (p : NoticePassInput) (ledger : List NoticeRecord) : List NoticeRecord :=
  ledger ++ (noticeProcess p.cfg p.fetchItem p.persistFails p.now p.data ledger).persisted

def runNoticePasses : List NoticePassInput → List NoticeRecord → List NoticeRecord
  | [], ledger => ledger
  | p :: ps, ledger => runNoticePasses ps (noticeLedgerStep p ledger)

/-- The varying inputs of one calendar pass. -/
structure CalendarPassInput where
  cfg : BBConfig
  fetchAttempt : String → Option String
  persistFails : AssignmentRecord → Bool
  now : Int
  serverEntries : List CalendarEntry

def calendarLedgerStep (p : CalendarPassInput) (ledger : List AssignmentRecord) :
    List AssignmentRecord :=
  ledger ++ (calendarProcess p.cfg p.fetchAttempt p.persistFails p.now p.serverEntries
    ledger).persisted

def runCalendarPasses : List CalendarPassInput → List AssignmentRecord → List AssignmentRecord
  | [], ledger => ledger
  | p :: ps, ledger => runCalendarPasses ps (calendarLedgerStep p ledger)

/-! ## Login handshake (src/core/blackboard.ts)

`BlackboardClient.login()` runs the identity-provider POST and, on an
accepted credential, the SSO validation GET; both remote behaviours appear
as an oracle.  The whole body sits in a try whose catch logs and returns
false, so every failure — rejected credentials as well as transport faults
at either stage — produces the same boolean and leaves the cookie state
untouched; only full success extracts the SSO cookies. -/

/-- The identity provider's behaviour: a token on acceptance, an explicit
rejection (`success: false` in the response body), or a transport fault
(the request throws). -/
inductive IAAAResult
  | success (token : String)
  | rejected
  | fault
deriving DecidableEq

/-- The SSO validation endpoint's behaviour: response cookie headers, or a
transport fault. -/
inductive SSOResult
  | ok (setCookieHeaders : List String)
  | fault
deriving DecidableEq

structure LoginOracle where
  iaaa : IAAAResult
  sso : String → SSOResult

/-- The manually managed cookie map, in insertion order. -/
abbrev CookieState := List (String × String)

/-- JavaScript `Map.set`: overwrite in place or append. -/
def mapSet : CookieState → String → String → CookieState
  | [], k, v => [(k, v)]
  | (k', v') :: rest, k, v =>
    if k' = k then (k, v) :: rest else (k', v') :: mapSet rest k v

/-- One set-cookie header parsed as `extractCookies` does: the part before
the first semicolon split on the equals sign; both pieces must be truthy
before trimming. -/
def parseSetCookie (h : String) : Option (String × String) :=
  let nameValue := (h.splitOn ";").headD ""
  let parts := nameValue.splitOn "="
  match parts with
  | name :: value :: _ =>
    if name != "" && value != "" then some (name.trim, value.trim) else none
  | _ => none

/-- `BlackboardClient.extractCookies(response)` over the set-cookie headers. -/
def extractCookies (st : CookieState) (headers : List String) : CookieState :=
  headers.foldl
    (fun s h =>
      match parseSetCookie h with
      | some p => mapSet s p.1 p.2
      | none => s)
    st

/-- `BlackboardClient.login()`: true with the SSO cookies merged on full
success; false with the state unchanged on rejection or on a transport
fault at either stage. -/
def login (o : LoginOracle) (st : CookieState) : Bool × CookieState :=
  match o.iaaa with
  | IAAAResult.fault => (false, st)
  | IAAAResult.rejected => (false, st)
  | IAAAResult.success token =>
    match o.sso token with
    | SSOResult.fault => (false, st)
    | SSOResult.ok headers => (true, extractCookies st headers)

/-! ## Concrete fixtures used by counterexamples and witnesses -/

/-- The configuration row with the model's default column values. -/
def defaultConfig : BBConfig :=
  { courseAliases := [], noticeTitlePre := "[教学网]", generalAllowedEvents := "123",
    specificCourseEvents := [], calendarAdvanceHours := 24, assignmentTitlePre := "[DDL!]" }

/-- A configuration whose override map carries an uppercase course key and
whose global set is empty. -/
def overrideConfig : BBConfig :=
  { courseAliases := [], noticeTitlePre := "[教学网]", generalAllowedEvents := "",
    specificCourseEvents := [("Math", "1")], calendarAdvanceHours := 24,
    assignmentTitlePre := "[DDL!]" }

/-- A calendar entry four hours in the past relative to now = 0. -/
def pastEntry : CalendarEntry :=
  { id := "e1", endDate := { raw := "past", parsedMs := -14400000 }, calendarName := "Math",
    title := "t", description := none }

/-- A calendar entry 49 hours ahead of now = 0. -/
def entry49h : CalendarEntry :=
  { id := "e49", endDate := { raw := "later", parsedMs := 176400000 }, calendarName := "Math",
    title := "t", description := none }

/-- A calendar entry 47 hours 59 minutes ahead of now = 0. -/
def entry4759 : CalendarEntry :=
  { id := "e4759", endDate := { raw := "soon", parsedMs := 172740000 }, calendarName := "Math",
    title := "t", description := none }

/-- A non-personal calendar entry shortly ahead of now = 0. -/
def mathCalEntry : CalendarEntry :=
  { id := "cal1", endDate := { raw := "d", parsedMs := 1000 }, calendarName := "Math(24-25)",
    title := "hw", description := none }

/-- Two minimal notice records with distinct ids. -/
def recA : NoticeRecord :=
  { noticeId := "a", time := "", course := "", title := "", content := "", event := "",
    shouldNotify := true }

def recB : NoticeRecord :=
  { noticeId := "b", time := "", course := "", title := "", content := "", event := "",
    shouldNotify := true }

/-- A minimal notice entry with id "a". -/
def entryA : NoticeEntry :=
  { se_id := "a", se_timestamp := 0, se_courseId := "c1", se_context := none,
    se_details := none, event_type := none, se_itemUri := none, dueDate := none }

/-- A feed document with the single entry `entryA`. -/
def feedA : NoticeData := { courses := [], streamEntries := [entryA] }

/-- A notice pass whose feed returns the same entry twice. -/
def dupFeedPass : NoticePassInput :=
  { cfg := defaultConfig, fetchItem := fun _ => none, persistFails := fun _ => false,
    now := 0, data := { courses := [], streamEntries := [entryA, entryA] } }

/-- A notice pass whose feed returns one entry once. -/
def singleFeedPass : NoticePassInput :=
  { cfg := defaultConfig, fetchItem := fun _ => none, persistFails := fun _ => false,
    now := 0, data := { courses := [], streamEntries := [entryA] } }

/-- A calendar pass whose server returns one non-personal entry. -/
def singleCalendarPass : CalendarPassInput :=
  { cfg := defaultConfig, fetchAttempt := fun _ => none, persistFails := fun _ => false,
    now := 0, serverEntries := [mathCalEntry] }

/-- An oracle whose identity provider rejects the credentials. -/
def oracleRejected : LoginOracle :=
  { iaaa := IAAAResult.rejected, sso := fun _ => SSOResult.fault }

/-- An oracle whose identity provider request faults. -/
def oracleFault : LoginOracle :=
  { iaaa := IAAAResult.fault, sso := fun _ => SSOResult.fault }

/-- An oracle for a fully successful handshake. -/
def oracleOk : LoginOracle :=
  { iaaa := IAAAResult.success "tok",
    sso := fun _ => SSOResult.ok ["s_session_id=abc; Path=/"] }

/-! # Lemmas and claim theorems -/

theorem hexDigitVal_hexDigitChar (d : Nat) (h : d < 16) :
    hexDigitVal (hexDigitChar d) = some d := by
  interval_cases d <;> rfl

theorem hexDigitChar_ne_colon (d : Nat) : hexDigitChar d ≠ 58 := by
  unfold hexDigitChar
  split <;> omega

theorem lenientHexDecode_hexEncode (l : List Nat) (h : ValidBytes l) :
    lenientHexDecode (hexEncode l) = l := by
  induction l with
  | nil => rfl
  | cons b t ih =>
    have hb : b < 256 := h b (List.mem_cons_self _ _)
    have hdiv : b / 16 < 16 := by omega
    have hmod : b % 16 < 16 := Nat.mod_lt _ (by omega)
    have ht : ValidBytes t := fun x hx => h x (List.mem_cons_of_mem _ hx)
    show lenientHexDecode (hexDigitChar (b / 16) :: hexDigitChar (b % 16) :: hexEncode t) = b :: t
    rw [lenientHexDecode, hexDigitVal_hexDigitChar _ hdiv, hexDigitVal_hexDigitChar _ hmod]
    simp only [ih ht, List.cons.injEq, and_true]
    omega

theorem not_colon_mem_hexEncode (l : List Nat) : (58 : Nat) ∉ hexEncode l := by
  intro hmem
  simp only [hexEncode, List.mem_flatten, List.mem_map] at hmem
  obtain ⟨_, ⟨b, _, rfl⟩, hc⟩ := hmem
  simp only [hexEncodeByte, List.mem_cons, List.not_mem_nil, or_false] at hc
  rcases hc with h | h
  · exact hexDigitChar_ne_colon _ h.symm
  · exact hexDigitChar_ne_colon _ h.symm

theorem splitSep_of_not_mem (sep : Nat) (b : List Nat) (h : sep ∉ b) :
    splitSep sep b = [b] := by
  induction b with
  | nil => rfl
  | cons c rest ih =>
    have hc : c ≠ sep := fun hc => h (hc ▸ List.mem_cons_self _ _)
    have hr : sep ∉ rest := fun hr => h (List.mem_cons_of_mem _ hr)
    rw [splitSep, if_neg hc, ih hr]

theorem splitSep_append (sep : Nat) (a b : List Nat) (h : sep ∉ a) :
    splitSep sep (a ++ sep :: b) = a :: splitSep sep b := by
  induction a with
  | nil => simp [splitSep]
  | cons c rest ih =>
    have hc : c ≠ sep := fun hc => h (hc ▸ List.mem_cons_self _ _)
    have hr : sep ∉ rest := fun hr => h (List.mem_cons_of_mem _ hr)
    show splitSep sep (c :: (rest ++ sep :: b)) = (c :: rest) :: splitSep sep b
    rw [splitSep, if_neg hc, ih hr]

theorem CryptoUtils.normalizeKey_length (key : List Nat) :
    (CryptoUtils.normalizeKey key).length = 32 := by
  simp only [CryptoUtils.normalizeKey, List.length_take, List.length_append,
    List.length_replicate]
  omega

theorem CryptoUtils.normalizeKey_valid (key : List Nat) (h : ValidBytes key) :
    ValidBytes (CryptoUtils.normalizeKey key) := by
  intro b hb
  have hb' := List.mem_of_mem_take hb
  rcases List.mem_append.mp hb' with h1 | h2
  · exact h b h1
  · have := List.eq_of_mem_replicate h2
    omega

theorem tagCipher_invertible : Invertible tagCipher := by
  intro k iv m hk
  show (if (k ++ m).take 32 = k then some ((k ++ m).drop 32) else none) = some m
  rw [← hk, List.take_left, List.drop_left, if_pos rfl]

theorem tagCipher_rejectsWrongKey : RejectsWrongKey tagCipher := by
  intro k k' iv m hk hk' hne
  show (if (k ++ m).take 32 = k' then some ((k ++ m).drop 32) else none) = none
  rw [← hk, List.take_left]
  exact if_neg hne

theorem tagCipher_encValid : EncValid tagCipher := by
  intro k iv m hk _ hm b hb
  rcases List.mem_append.mp hb with h | h
  · exact hk b h
  · exact hm b h

/-- C3: for every cipher primitive satisfying the library's inversion
contract, every key of any length and every secret, decrypting an encryption
under the same key recovers the secret. -/
theorem decrypt_encrypt_roundtrip (c : CbcCipher) (hinv : Invertible c) (hev : EncValid c)
    (key iv secret : List Nat) (hk : ValidBytes key) (hiv : ValidBytes iv)
    (hivlen : iv.length = 16) (hs : ValidBytes secret) :
    CryptoUtils.decrypt c key (CryptoUtils.encrypt c key iv secret) = Except.ok secret := by
  have hct : ValidBytes (c.enc (CryptoUtils.normalizeKey key) iv secret) :=
    hev _ _ _ (CryptoUtils.normalizeKey_valid key hk) hiv hs
  have hne : hexEncode iv ++ 58 :: hexEncode (c.enc (CryptoUtils.normalizeKey key) iv secret) ≠ [] := by
    simp
  rw [CryptoUtils.encrypt, CryptoUtils.decrypt, if_neg hne,
    splitSep_append 58 _ _ (not_colon_mem_hexEncode iv),
    splitSep_of_not_mem 58 _ (not_colon_mem_hexEncode _)]
  simp only [lenientHexDecode_hexEncode iv hiv, lenientHexDecode_hexEncode _ hct, hivlen, if_pos]
  rw [hinv _ _ _ (CryptoUtils.normalizeKey_length key)]

/-- Witness for C3: a concrete round trip through a short key. -/
theorem decrypt_encrypt_roundtrip_witness :
    CryptoUtils.decrypt tagCipher [107] (CryptoUtils.encrypt tagCipher [107]
      (List.replicate 16 0) [104, 105]) = Except.ok [104, 105] :=
  decrypt_encrypt_roundtrip tagCipher tagCipher_invertible tagCipher_encValid
    [107] (List.replicate 16 0) [104, 105] (by decide) (by decide) (by decide) (by decide)

/-- C4 counterexample: the distinct keys "abc" (bytes 97 98 99) and "abc0"
(bytes 97 98 99 48) normalize to the same 32-byte key, so decrypting under
the second key a value encrypted under the first succeeds and returns the
secret instead of raising the decryption error. -/
theorem decrypt_wrong_key_counterexample :
    ([97, 98, 99] : List Nat) ≠ [97, 98, 99, 48] ∧
    CryptoUtils.decrypt tagCipher [97, 98, 99, 48]
      (CryptoUtils.encrypt tagCipher [97, 98, 99] (List.replicate 16 0) [104, 105]) =
      Except.ok [104, 105] :=
  ⟨by decide, rfl⟩

/-- C4 amended: decryption under a different key raises the decryption error
provided the two keys still differ after normalization to 32 bytes (and the
cipher, like the library's padding check, rejects mismatched keys). -/
theorem decrypt_wrong_key_error (c : CbcCipher) (hrej : RejectsWrongKey c) (hev : EncValid c)
    (k1 k2 iv secret : List Nat) (hk1 : ValidBytes k1) (hiv : ValidBytes iv)
    (hivlen : iv.length = 16) (hs : ValidBytes secret)
    (hne : CryptoUtils.normalizeKey k1 ≠ CryptoUtils.normalizeKey k2) :
    CryptoUtils.decrypt c k2 (CryptoUtils.encrypt c k1 iv secret) =
      Except.error CryptoError.decryptionError := by
  have hct : ValidBytes (c.enc (CryptoUtils.normalizeKey k1) iv secret) :=
    hev _ _ _ (CryptoUtils.normalizeKey_valid k1 hk1) hiv hs
  have hnil : hexEncode iv ++ 58 :: hexEncode (c.enc (CryptoUtils.normalizeKey k1) iv secret) ≠ [] := by
    simp
  rw [CryptoUtils.encrypt, CryptoUtils.decrypt, if_neg hnil,
    splitSep_append 58 _ _ (not_colon_mem_hexEncode iv),
    splitSep_of_not_mem 58 _ (not_colon_mem_hexEncode _)]
  simp only [lenientHexDecode_hexEncode iv hiv, lenientHexDecode_hexEncode _ hct, hivlen, if_pos]
  rw [hrej _ _ _ _ (CryptoUtils.normalizeKey_length k1) (CryptoUtils.normalizeKey_length k2) hne]

/-- Witness for the amended C4: keys "a" and "b" differ after normalization,
and decryption fails. -/
theorem decrypt_wrong_key_error_witness :
    CryptoUtils.decrypt tagCipher [98]
      (CryptoUtils.encrypt tagCipher [97] (List.replicate 16 0) [104, 105]) =
      Except.error CryptoError.decryptionError :=
  decrypt_wrong_key_error tagCipher tagCipher_rejectsWrongKey tagCipher_encValid
    [97] [98] (List.replicate 16 0) [104, 105] (by decide) (by decide) (by decide) (by decide)
    (by decide)

/-- C10: for every non-empty input, `parseTitle` drops the final two
characters of the tag-stripped trimmed text unconditionally — in particular,
when the input has none of the decorative markup regions the result is
exactly the stripped trimmed text without its last two characters, and any
input whose stripped trimmed text has length at most two yields the empty
string. -/
theorem parseTitle_unconditional_slice (l : List Char) (hne : l ≠ [])
    (hnd : removeDecorations l = l) :
    parseTitleCore l =
      (trimChars (stripTags l)).take ((trimChars (stripTags l)).length - 2) ∧
    ((trimChars (stripTags (removeDecorations l))).length ≤ 2 → parseTitleCore l = []) := by
  constructor
  · rw [parseTitleCore, if_neg hne, hnd]
  · intro hlen
    rw [parseTitleCore, if_neg hne]
    show (trimChars (stripTags (removeDecorations l))).take
      ((trimChars (stripTags (removeDecorations l))).length - 2) = []
    have h0 : (trimChars (stripTags (removeDecorations l))).length - 2 = 0 := by omega
    rw [h0, List.take_zero]

/-- Witness for C10: the two-character input with no markup yields empty. -/
theorem parseTitle_unconditional_slice_witness :
    parseTitleCore ['a', 'b'] = [] :=
  (parseTitle_unconditional_slice ['a', 'b'] (by decide) (by decide)).2 (by decide)

/-- C6 counterexample: an entry whose end time is four hours in the past —
outside the requested window's lower bound of three hours before now — is
returned by the window re-validation because only the upper bound is
compared. -/
theorem calendar_window_counterexample :
    getCalendarData 0 48 [pastEntry] = [pastEntry] ∧
    convertToTimestamp pastEntry.endDate < 0 - 3 * 3600000 :=
  ⟨rfl, by decide⟩

/-- C6 amended: the re-validation bounds every returned entry's end time from
above by now plus the lookahead (so an entry 49 hours out is excluded at a
48-hour lookahead and one at 47 hours 59 minutes is included), and keeps
every server entry within that bound; the window's lower side is not
re-checked. -/
theorem getCalendarData_upper_bound (now advanceHours : Int) (entries : List CalendarEntry) :
    (∀ e ∈ getCalendarData now advanceHours entries,
      convertToTimestamp e.endDate - now ≤ advanceHours * 3600000) ∧
    (∀ e ∈ entries, convertToTimestamp e.endDate - now ≤ advanceHours * 3600000 →
      e ∈ getCalendarData now advanceHours entries) := by
  constructor
  · intro e he
    have h2 := (List.mem_filter.mp he).2
    simpa [testWithinHours] using h2
  · intro e he hb
    refine List.mem_filter.mpr ⟨he, ?_⟩
    simpa [testWithinHours] using hb

/-- Witness for the amended C6: at a 48-hour lookahead the entry at 47 hours
59 minutes is returned and the one at 49 hours is not. -/
theorem getCalendarData_upper_bound_witness :
    entry4759 ∈ getCalendarData 0 48 [entry49h, entry4759] ∧
    entry49h ∉ getCalendarData 0 48 [entry49h, entry4759] :=
  ⟨(getCalendarData_upper_bound 0 48 [entry49h, entry4759]).2 entry4759 (by decide) (by decide),
   by decide⟩

/-- C7 counterexample: a course stored in the override map under a key with
an uppercase letter is present case-insensitively, but the code lowercases
only the queried name, so the lookup misses and the global set is used: the
override admits assignments while the evaluator denies. -/
theorem eligibility_resolution_counterexample :
    isEligibleSpec overrideConfig "Math" "AS:AS_AVAIL" = true ∧
    isEventAllowed overrideConfig "Math" "AS:AS_AVAIL" = false :=
  ⟨by decide, by decide⟩

/-- C7 amended: the evaluator uses the override's category set exactly when
the lowercased course name is literally a key of the override map and the
stored override string is non-empty; otherwise it uses the global set; and
membership is tested against the category digit the event code maps to
(assignment prefix to 1, content prefix to 2, everything else to 3). -/
theorem isEventAllowed_eq_amended (cfg : BBConfig) (course event : String) :
    isEventAllowed cfg course event = isEligibleAmended cfg course event := by
  unfold isEventAllowed isEligibleAmended eventCategoryChar
  split_ifs <;> rfl

/-- C1 counterexample: with a batch of two records where only the first
insert fails, the second record is not persisted, although its own insert
would succeed. -/
theorem persistence_independence_counterexample :
    recB ∈ [recA, recB] ∧ (fun r => r.noticeId == "a") recB = false ∧
    recB ∉ createNoticeRecords (fun r => r.noticeId == "a") [recA, recB] :=
  ⟨by decide, by decide, by decide⟩

theorem createLoop_eq_takeWhile {α : Type} (fails : α → Bool) (l : List α) :
    createLoop fails l = l.takeWhile (fun r => !fails r) := by
  induction l with
  | nil => rfl
  | cons r rest ih =>
    cases hf : fails r <;> simp [createLoop, List.takeWhile_cons, hf, ih]

/-- C1 amended: the persistence step inserts exactly the records before the
first failing one — a failure aborts the remainder of the batch — for both
feed kinds; the failure is caught inside the create call, so the messages
sent and the batch built by the pass do not depend on it. -/
theorem persistence_stops_at_first_failure :
    (∀ (fails : NoticeRecord → Bool) (records : List NoticeRecord),
      createNoticeRecords fails records = records.takeWhile (fun r => !fails r)) ∧
    (∀ (fails : AssignmentRecord → Bool) (records : List AssignmentRecord),
      createAssignmentRecords fails records = records.takeWhile (fun r => !fails r)) ∧
    (∀ (cfg : BBConfig) (fetchItem : String → Option String)
      (pf1 pf2 : NoticeRecord → Bool) (now : Int) (data : NoticeData)
      (old : List NoticeRecord),
      (noticeProcess cfg fetchItem pf1 now data old).messages =
        (noticeProcess cfg fetchItem pf2 now data old).messages ∧
      (noticeProcess cfg fetchItem pf1 now data old).batch =
        (noticeProcess cfg fetchItem pf2 now data old).batch) :=
  ⟨fun fails records => createLoop_eq_takeWhile fails records,
   fun fails records => createLoop_eq_takeWhile fails records,
   fun _ _ _ _ _ _ _ => ⟨rfl, rfl⟩⟩

/-- C9 counterexample: a run whose identity provider rejects the credentials
and a run whose request faults produce the same value — false with the
cookie state unchanged — so the caller cannot distinguish an authentication
failure from a transport failure; no typed error is raised. -/
theorem login_indistinguishable_counterexample :
    login oracleRejected [] = (false, []) ∧ login oracleFault [] = (false, []) :=
  ⟨rfl, rfl⟩

/-- C9 amended: login returns false both on credential rejection and on a
transport fault at either stage — the two failure classes are not
distinguishable by the caller — and in every failure case the cookie state
is unchanged, so login can be retried from scratch; only full success
returns true and merges the SSO cookies. -/
theorem login_failure_behaviour (o : LoginOracle) (st : CookieState) :
    (o.iaaa = IAAAResult.rejected → login o st = (false, st)) ∧
    (o.iaaa = IAAAResult.fault → login o st = (false, st)) ∧
    (∀ t, o.iaaa = IAAAResult.success t → o.sso t = SSOResult.fault →
      login o st = (false, st)) ∧
    (∀ t headers, o.iaaa = IAAAResult.success t → o.sso t = SSOResult.ok headers →
      login o st = (true, extractCookies st headers)) := by
  refine ⟨fun h => ?_, fun h => ?_, fun t h1 h2 => ?_, fun t headers h1 h2 => ?_⟩
  · simp [login, h]
  · simp [login, h]
  · simp [login, h1, h2]
  · simp [login, h1, h2]

/-- Witness for the amended C9: a rejected run returns false unchanged, and a
successful run returns true with the SSO cookie merged. -/
theorem login_failure_behaviour_witness :
    login oracleRejected [] = (false, []) ∧
    login oracleOk [] = (true, extractCookies [] ["s_session_id=abc; Path=/"]) :=
  ⟨(login_failure_behaviour oracleRejected []).1 rfl,
   (login_failure_behaviour oracleOk []).2.2.2 "tok" ["s_session_id=abc; Path=/"] rfl rfl⟩

/-- C2: a first-run pass of either feed kind — the sentinel id absent from
the persisted set — sends exactly the one initialization message and no
per-item notifications, whatever the feed returns and whatever each entry's
eligibility, and the sentinel record is part of the batch handed to the
persistence step. -/
theorem first_run_single_init_message
    (cfg : BBConfig) (fetchItem : String → Option String) (pfN : NoticeRecord → Bool)
    (nowN : Int) (data : NoticeData) (oldN : List NoticeRecord)
    (fetchAttempt : String → Option String) (pfA : AssignmentRecord → Bool)
    (nowA : Int) (serverEntries : List CalendarEntry) (oldA : List AssignmentRecord)
    (hN : noticeIsInit oldN = true) (hA : assignmentIsInit oldA = true)
    (hAdv : 0 < cfg.calendarAdvanceHours) :
    ((noticeProcess cfg fetchItem pfN nowN data oldN).messages =
      [SentMsg.initMsg (noticeInitText (noticeNewEntries data oldN).length)] ∧
     "%init%" ∈ (noticeProcess cfg fetchItem pfN nowN data oldN).batch.map
       (fun r => r.noticeId)) ∧
    ((calendarProcess cfg fetchAttempt pfA nowA serverEntries oldA).messages =
      [SentMsg.initMsg assignmentInitText] ∧
     "%init%" ∈ (calendarProcess cfg fetchAttempt pfA nowA serverEntries oldA).batch.map
       (fun r => r.assignmentId)) := by
  have hAdv' : ¬ (cfg.calendarAdvanceHours ≤ 0) := by omega
  refine ⟨⟨?_, ?_⟩, ?_, ?_⟩
  · simp [noticeProcess, hN]
  · simp [noticeProcess, hN, initNoticeRecord]
  · simp [calendarProcess, hAdv', hA]
  · simp [calendarProcess, hAdv', hA, initAssignmentRecord]

/-- Witness for C2: concrete first runs of both feeds. -/
theorem first_run_single_init_message_witness :
    ((noticeProcess defaultConfig (fun _ => none) (fun _ => false) 0 feedA []).messages =
      [SentMsg.initMsg (noticeInitText (noticeNewEntries feedA []).length)] ∧
     "%init%" ∈ (noticeProcess defaultConfig (fun _ => none) (fun _ => false) 0
       feedA []).batch.map (fun r => r.noticeId)) ∧
    ((calendarProcess defaultConfig (fun _ => none) (fun _ => false) 0
        [mathCalEntry] []).messages = [SentMsg.initMsg assignmentInitText] ∧
     "%init%" ∈ (calendarProcess defaultConfig (fun _ => none) (fun _ => false) 0
       [mathCalEntry] []).batch.map (fun r => r.assignmentId)) :=
  first_run_single_init_message defaultConfig (fun _ => none) (fun _ => false) 0 feedA []
    (fun _ => none) (fun _ => false) 0 [mathCalEntry] [] (by decide) (by decide) (by decide)

theorem filterNoticeInfo_snd_init (cfg : BBConfig) (fetchItem : String → Option String)
    (courseDict : List (String × String)) (entry : NoticeEntry) :
    (filterNoticeInfo cfg fetchItem courseDict true entry).2 = [] := by
  simp [filterNoticeInfo]

theorem filterAssignmentInfo_snd (fetchAttempt : String → Option String)
    (entry : CalendarEntry) :
    (filterAssignmentInfo fetchAttempt entry).2 =
      if removeSuffix entry.calendarName ≠ "个人" then [entry.id] else [] := by
  simp only [filterAssignmentInfo]
  split_ifs with h
  · cases hf : fetchAttempt entry.id <;> simp [hf]
  · rfl

/-- C8 counterexample: a first-run calendar pass still fetches the attempt
detail page for a non-personal entry — its fetch log is not empty. -/
theorem first_run_enrichment_counterexample :
    assignmentIsInit ([] : List AssignmentRecord) = true ∧
    (calendarProcess defaultConfig (fun _ => none) (fun _ => false) 0
      [mathCalEntry] []).fetchLog = ["cal1"] :=
  ⟨by decide, by decide⟩

/-- C8 amended: only the notice feed skips enrichment on a first run — a
first-run notice pass performs no detail fetch at all — while the calendar
pass fetches the attempt page for every new non-personal entry regardless of
whether it is a first run. -/
theorem first_run_enrichment (cfg : BBConfig) (fetchItem : String → Option String)
    (pf : NoticeRecord → Bool) (now : Int) (data : NoticeData) (old : List NoticeRecord)
    (h : noticeIsInit old = true) :
    (noticeProcess cfg fetchItem pf now data old).fetchLog = [] ∧
    (∀ (fetchAttempt : String → Option String) (entry : CalendarEntry),
      (filterAssignmentInfo fetchAttempt entry).2 =
        if removeSuffix entry.calendarName ≠ "个人" then [entry.id] else []) := by
  constructor
  · simp [noticeProcess, h, List.map_map, Function.comp_def, filterNoticeInfo_snd_init]
  · intro fetchAttempt entry
    exact filterAssignmentInfo_snd fetchAttempt entry

/-- Witness for the amended C8: the concrete first-run notice pass fetches
nothing, and the non-personal calendar entry is fetched. -/
theorem first_run_enrichment_witness :
    (noticeProcess defaultConfig (fun _ => none) (fun _ => false) 0 feedA []).fetchLog = [] ∧
    (filterAssignmentInfo (fun _ => none) mathCalEntry).2 =
      (if removeSuffix mathCalEntry.calendarName ≠ "个人" then [mathCalEntry.id] else []) :=
  ⟨(first_run_enrichment defaultConfig (fun _ => none) (fun _ => false) 0 feedA []
      (by decide)).1,
   (first_run_enrichment defaultConfig (fun _ => none) (fun _ => false) 0 feedA []
      (by decide)).2 (fun _ => none) mathCalEntry⟩

/-- C5 counterexample: a first-run pass whose feed returns the same entry id
twice persists two records with that id — the persisted record-id set holds
a duplicate. -/
theorem ledger_duplicate_counterexample :
    (runNoticePasses [dupFeedPass] []).map (fun r => r.noticeId) = ["a", "a", "%init%"] ∧
    ¬ ((runNoticePasses [dupFeedPass] []).map (fun r => r.noticeId)).Nodup :=
  ⟨rfl, by decide⟩

theorem filterNoticeInfo_fst_noticeId (cfg : BBConfig) (fetchItem : String → Option String)
    (courseDict : List (String × String)) (isInit : Bool) (entry : NoticeEntry) :
    (filterNoticeInfo cfg fetchItem courseDict isInit entry).1.noticeId = entry.se_id := rfl

theorem filterAssignmentInfo_fst_assignmentId (fetchAttempt : String → Option String)
    (entry : CalendarEntry) :
    (filterAssignmentInfo fetchAttempt entry).1.assignmentId = entry.id := rfl

theorem createStep_sublist {α : Type} (pf : α → Bool) (batch : List α) :
    List.Sublist (if batch.isEmpty then [] else createLoop pf batch) batch := by
  split_ifs
  · exact List.nil_sublist _
  · rw [createLoop_eq_takeWhile]
    exact List.takeWhile_sublist _

/-- The generic ledger-append argument: appending to a duplicate-free ledger
a duplicate-free batch of ids disjoint from it (the sentinel added only when
absent), restricted to any sublist the persistence step kept, stays
duplicate-free. -/
theorem nodup_ledger_append (oldIds persIds newIds : List String) (isInit : Bool)
    (hold : oldIds.Nodup) (hnew : newIds.Nodup)
    (hdisj : ∀ x ∈ newIds, x ∉ oldIds)
    (hsent : "%init%" ∉ newIds)
    (hinit : isInit = true → "%init%" ∉ oldIds)
    (hpers : List.Sublist persIds (if isInit then newIds ++ ["%init%"] else newIds)) :
    (oldIds ++ persIds).Nodup := by
  have hbatch : (if isInit then newIds ++ ["%init%"] else newIds).Nodup := by
    cases isInit
    · simpa using hnew
    · simp only [if_pos]
      rw [List.nodup_append]
      refine ⟨hnew, List.nodup_singleton _, ?_⟩
      intro x hx hx'
      have hxe : x = "%init%" := by simpa using hx'
      exact hsent (hxe ▸ hx)
  have hpnd : persIds.Nodup := hpers.nodup hbatch
  rw [List.nodup_append]
  refine ⟨hold, hpnd, ?_⟩
  intro x hxo hxp
  have hxb := hpers.subset hxp
  cases hi : isInit
  · rw [hi] at hxb
    simp only [if_neg Bool.false_ne_true] at hxb
    exact hdisj x hxb hxo
  · rw [hi] at hxb
    simp only [if_pos] at hxb
    rcases List.mem_append.mp hxb with h | h
    · exact hdisj x h hxo
    · have hxe : x = "%init%" := by simpa using h
      exact hinit hi (hxe ▸ hxo)

theorem noticeIsInit_true_not_mem (old : List NoticeRecord) (h : noticeIsInit old = true) :
    "%init%" ∉ noticeOldIds old := by
  simpa [noticeIsInit] using h

theorem mem_noticeNewEntries_not_old {data : NoticeData} {old : List NoticeRecord}
    {e : NoticeEntry} (he : e ∈ noticeNewEntries data old) :
    e.se_id ∉ noticeOldIds old := by
  have h2 := (List.mem_filter.mp he).2
  simpa using h2

theorem noticeProcess_batch_ids (cfg : BBConfig) (fetchItem : String → Option String)
    (pf : NoticeRecord → Bool) (now : Int) (data : NoticeData) (old : List NoticeRecord) :
    (noticeProcess cfg fetchItem pf now data old).batch.map (fun r => r.noticeId) =
      (if noticeIsInit old then
        (noticeNewEntries data old).map (fun e => e.se_id) ++ ["%init%"]
      else (noticeNewEntries data old).map (fun e => e.se_id)) := by
  cases h : noticeIsInit old <;>
    simp [noticeProcess, h, List.map_map, Function.comp_def, initNoticeRecord,
      filterNoticeInfo_fst_noticeId]

theorem noticeProcess_persisted_sublist (cfg : BBConfig) (fetchItem : String → Option String)
    (pf : NoticeRecord → Bool) (now : Int) (data : NoticeData) (old : List NoticeRecord) :
    List.Sublist (noticeProcess cfg fetchItem pf now data old).persisted
      (noticeProcess cfg fetchItem pf now data old).batch :=
  createStep_sublist pf _

theorem noticeLedgerStep_nodup (p : NoticePassInput) (L : List NoticeRecord)
    (hL : (noticeOldIds L).Nodup)
    (hfeed : (p.data.streamEntries.map (fun e => e.se_id)).Nodup)
    (hsent : "%init%" ∉ p.data.streamEntries.map (fun e => e.se_id)) :
    (noticeOldIds (noticeLedgerStep p L)).Nodup := by
  have hids : noticeOldIds (noticeLedgerStep p L) =
      noticeOldIds L ++
        (noticeProcess p.cfg p.fetchItem p.persistFails p.now p.data L).persisted.map
          (fun r => r.noticeId) := by
    simp [noticeLedgerStep, noticeOldIds]
  rw [hids]
  have hsubNew : List.Sublist ((noticeNewEntries p.data L).map (fun e => e.se_id))
      (p.data.streamEntries.map (fun e => e.se_id)) :=
    (List.filter_sublist _).map _
  refine nodup_ledger_append _ _ ((noticeNewEntries p.data L).map (fun e => e.se_id))
    (noticeIsInit L) hL (hsubNew.nodup hfeed) ?_ ?_
    (noticeIsInit_true_not_mem L) ?_
  · intro x hx
    obtain ⟨e, he, rfl⟩ := List.mem_map.mp hx
    exact mem_noticeNewEntries_not_old he
  · intro hx
    exact hsent (hsubNew.subset hx)
  · have h1 := (noticeProcess_persisted_sublist p.cfg p.fetchItem p.persistFails p.now
      p.data L).map (fun r => r.noticeId)
    rw [noticeProcess_batch_ids] at h1
    exact h1

theorem runNoticePasses_nodup (ps : List NoticePassInput) :
    ∀ L, (∀ p ∈ ps, (p.data.streamEntries.map (fun e => e.se_id)).Nodup ∧
        "%init%" ∉ p.data.streamEntries.map (fun e => e.se_id)) →
      (noticeOldIds L).Nodup → (noticeOldIds (runNoticePasses ps L)).Nodup := by
  induction ps with
  | nil => intro L _ hL; exact hL
  | cons p ps ih =>
    intro L hps hL
    have hp := hps p (List.mem_cons_self _ _)
    exact ih _ (fun q hq => hps q (List.mem_cons_of_mem _ hq))
      (noticeLedgerStep_nodup p L hL hp.1 hp.2)

theorem subset_runNoticePasses (ps : List NoticePassInput) :
    ∀ L, L ⊆ runNoticePasses ps L := by
  induction ps with
  | nil => intro L x hx; exact hx
  | cons p ps ih =>
    intro L x hx
    exact ih _ (List.mem_append_left _ hx)

theorem runNoticePasses_append (a b : List NoticePassInput) (L : List NoticeRecord) :
    runNoticePasses (a ++ b) L = runNoticePasses b (runNoticePasses a L) := by
  induction a generalizing L with
  | nil => rfl
  | cons p a ih => simp [runNoticePasses, ih]

theorem assignmentIsInit_true_not_mem (old : List AssignmentRecord)
    (h : assignmentIsInit old = true) : "%init%" ∉ assignmentOldIds old := by
  simpa [assignmentIsInit] using h

theorem mem_calendarNewEntries_not_old {now advanceHours : Int}
    {serverEntries : List CalendarEntry} {old : List AssignmentRecord} {e : CalendarEntry}
    (he : e ∈ calendarNewEntries now advanceHours serverEntries old) :
    e.id ∉ assignmentOldIds old := by
  have h2 := (List.mem_filter.mp he).2
  simpa using h2

theorem calendarNewEntries_ids_sublist (now advanceHours : Int)
    (serverEntries : List CalendarEntry) (old : List AssignmentRecord) :
    List.Sublist ((calendarNewEntries now advanceHours serverEntries old).map (fun e => e.id))
      (serverEntries.map (fun e => e.id)) :=
  ((List.filter_sublist _).trans (List.filter_sublist _)).map _

theorem calendarProcess_batch_ids (cfg : BBConfig) (fetchAttempt : String → Option String)
    (pf : AssignmentRecord → Bool) (now : Int) (serverEntries : List CalendarEntry)
    (old : List AssignmentRecord) (hg : ¬ cfg.calendarAdvanceHours ≤ 0) :
    (calendarProcess cfg fetchAttempt pf now serverEntries old).batch.map
        (fun r => r.assignmentId) =
      (if assignmentIsInit old then
        (calendarNewEntries now cfg.calendarAdvanceHours serverEntries old).map
          (fun e => e.id) ++ ["%init%"]
      else
        (calendarNewEntries now cfg.calendarAdvanceHours serverEntries old).map
          (fun e => e.id)) := by
  cases h : assignmentIsInit old <;>
    simp [calendarProcess, hg, h, List.map_map, Function.comp_def, initAssignmentRecord,
      filterAssignmentInfo_fst_assignmentId]

theorem calendarProcess_persisted_sublist (cfg : BBConfig)
    (fetchAttempt : String → Option String) (pf : AssignmentRecord → Bool) (now : Int)
    (serverEntries : List CalendarEntry) (old : List AssignmentRecord) :
    List.Sublist (calendarProcess cfg fetchAttempt pf now serverEntries old).persisted
      (calendarProcess cfg fetchAttempt pf now serverEntries old).batch := by
  by_cases hg : cfg.calendarAdvanceHours ≤ 0
  · simp [calendarProcess, hg]
  · simp only [calendarProcess, if_neg hg]
    exact createStep_sublist pf _

theorem calendarLedgerStep_nodup (p : CalendarPassInput) (L : List AssignmentRecord)
    (hL : (assignmentOldIds L).Nodup)
    (hfeed : (p.serverEntries.map (fun e => e.id)).Nodup)
    (hsent : "%init%" ∉ p.serverEntries.map (fun e => e.id)) :
    (assignmentOldIds (calendarLedgerStep p L)).Nodup := by
  have hids : assignmentOldIds (calendarLedgerStep p L) =
      assignmentOldIds L ++
        (calendarProcess p.cfg p.fetchAttempt p.persistFails p.now p.serverEntries
          L).persisted.map (fun r => r.assignmentId) := by
    simp [calendarLedgerStep, assignmentOldIds]
  rw [hids]
  by_cases hg : p.cfg.calendarAdvanceHours ≤ 0
  · have hp : (calendarProcess p.cfg p.fetchAttempt p.persistFails p.now p.serverEntries
        L).persisted = [] := by
      simp [calendarProcess, hg]
    rw [hp]
    simpa using hL
  · have hsubNew : List.Sublist
        ((calendarNewEntries p.now p.cfg.calendarAdvanceHours p.serverEntries L).map
          (fun e => e.id))
        (p.serverEntries.map (fun e => e.id)) :=
      calendarNewEntries_ids_sublist _ _ _ _
    refine nodup_ledger_append _ _
      ((calendarNewEntries p.now p.cfg.calendarAdvanceHours p.serverEntries L).map
        (fun e => e.id))
      (assignmentIsInit L) hL (hsubNew.nodup hfeed) ?_ ?_
      (assignmentIsInit_true_not_mem L) ?_
    · intro x hx
      obtain ⟨e, he, rfl⟩ := List.mem_map.mp hx
      exact mem_calendarNewEntries_not_old he
    · intro hx
      exact hsent (hsubNew.subset hx)
    · have h1 := (calendarProcess_persisted_sublist p.cfg p.fetchAttempt p.persistFails
        p.now p.serverEntries L).map (fun r => r.assignmentId)
      rw [calendarProcess_batch_ids p.cfg p.fetchAttempt p.persistFails p.now
        p.serverEntries L hg] at h1
      exact h1

theorem runCalendarPasses_nodup (qs : List CalendarPassInput) :
    ∀ L, (∀ q ∈ qs, (q.serverEntries.map (fun e => e.id)).Nodup ∧
        "%init%" ∉ q.serverEntries.map (fun e => e.id)) →
      (assignmentOldIds L).Nodup → (assignmentOldIds (runCalendarPasses qs L)).Nodup := by
  induction qs with
  | nil => intro L _ hL; exact hL
  | cons q qs ih =>
    intro L hqs hL
    have hq := hqs q (List.mem_cons_self _ _)
    exact ih _ (fun r hr => hqs r (List.mem_cons_of_mem _ hr))
      (calendarLedgerStep_nodup q L hL hq.1 hq.2)

theorem subset_runCalendarPasses (qs : List CalendarPassInput) :
    ∀ L, L ⊆ runCalendarPasses qs L := by
  induction qs with
  | nil => intro L x hx; exact hx
  | cons q qs ih =>
    intro L x hx
    exact ih _ (List.mem_append_left _ hx)

theorem runCalendarPasses_append (a b : List CalendarPassInput) (L : List AssignmentRecord) :
    runCalendarPasses (a ++ b) L = runCalendarPasses b (runCalendarPasses a L) := by
  induction a generalizing L with
  | nil => rfl
  | cons q a ih => simp [runCalendarPasses, ih]

/-- C5 amended: starting from an empty ledger, after any sequence of sync
passes of either feed kind in which every single feed response carries
pairwise-distinct entry ids none of which is the sentinel id, the persisted
record-id set contains no duplicates, and once the sentinel id is present
after some prefix of the passes it is still present at the end (records are
only ever appended). -/
theorem ledger_nodup_invariant (ps : List NoticePassInput) (qs : List CalendarPassInput)
    (hps : ∀ p ∈ ps, (p.data.streamEntries.map (fun e => e.se_id)).Nodup ∧
      "%init%" ∉ p.data.streamEntries.map (fun e => e.se_id))
    (hqs : ∀ q ∈ qs, (q.serverEntries.map (fun e => e.id)).Nodup ∧
      "%init%" ∉ q.serverEntries.map (fun e => e.id)) :
    ((runNoticePasses ps []).map (fun r => r.noticeId)).Nodup ∧
    ((runCalendarPasses qs []).map (fun r => r.assignmentId)).Nodup ∧
    (∀ ps1 ps2, ps = ps1 ++ ps2 →
      "%init%" ∈ (runNoticePasses ps1 []).map (fun r => r.noticeId) →
      "%init%" ∈ (runNoticePasses ps []).map (fun r => r.noticeId)) ∧
    (∀ qs1 qs2, qs = qs1 ++ qs2 →
      "%init%" ∈ (runCalendarPasses qs1 []).map (fun r => r.assignmentId) →
      "%init%" ∈ (runCalendarPasses qs []).map (fun r => r.assignmentId)) := by
  refine ⟨runNoticePasses_nodup ps [] hps List.nodup_nil,
    runCalendarPasses_nodup qs [] hqs List.nodup_nil, ?_, ?_⟩
  · intro ps1 ps2 heq hmem
    obtain ⟨r, hr, hid⟩ := List.mem_map.mp hmem
    subst heq
    rw [runNoticePasses_append]
    exact List.mem_map.mpr ⟨r, subset_runNoticePasses ps2 _ hr, hid⟩
  · intro qs1 qs2 heq hmem
    obtain ⟨r, hr, hid⟩ := List.mem_map.mp hmem
    subst heq
    rw [runCalendarPasses_append]
    exact List.mem_map.mpr ⟨r, subset_runCalendarPasses qs2 _ hr, hid⟩

/-- Witness for the amended C5: single concrete passes of both feeds yield
duplicate-free ledgers. -/
theorem ledger_nodup_invariant_witness :
    ((runNoticePasses [singleFeedPass] []).map (fun r => r.noticeId)).Nodup ∧
    ((runCalendarPasses [singleCalendarPass] []).map (fun r => r.assignmentId)).Nodup :=
  ⟨(ledger_nodup_invariant [singleFeedPass] [singleCalendarPass]
      (by decide) (by decide)).1,
   (ledger_nodup_invariant [singleFeedPass] [singleCalendarPass]
      (by decide) (by decide)).2.1⟩

end BBWatcher
